import Mathlib

/-!
Verification of the multimodal route planner core (`src/planner.py`).

Shallow embedding conventions:
* Python floats are modelled by `ℚ`; integer quantities (crowd levels,
  `max_crowd`, `runs`) by `ℤ`.
* Python dicts with string keys are modelled by association lists
  `List (String × ℚ)`; `d.get(k, 0.0)` becomes `(b.lookup k).getD 0` and
  `d[k] = v` becomes `setKey`.
* Fallible code (direct dict/list indexing that can raise in Python) is
  embedded as `Option`-returning functions; `none` models a raised exception.
* External collaborators (crowd CSV lookups, the current time, randomness)
  are passed in as explicit function/`Option` parameters.
-/

/-- One normalized segment, as produced by `paths_to_segs`. -/
structure Seg where
  mode : String
  name : String
  distance_m : ℚ
  duration_min : ℚ
  crowd : ℤ
  best_car : Option ℤ
  poly : List (ℚ × ℚ)
deriving DecidableEq, Repr

/-- Merged preferences as produced by `load_prefs` (all top-level keys of
`DEFAULT_PREFS` are present after the `{**DEFAULT_PREFS, **data}` merge; the
`mode_bias` value itself may still be a partial dict, hence the assoc list).
`extra` carries any other stored top-level keys, modelled with rational
values, so that frame conditions can be stated. -/
structure Prefs where
  crowd_weight : ℚ
  max_crowd : ℤ
  walk_limit_min : ℚ
  mode_bias : List (String × ℚ)
  runs : ℤ
  extra : List (String × ℚ)
deriving DecidableEq, Repr

/-- `bias.get(mode, 0.0)` from the source: assoc-list lookup defaulting to 0. -/
def getBias (b : List (String × ℚ)) (m : String) : ℚ :=
  (b.lookup m).getD 0

/-- Python dict assignment `b[m] = v`: replace the first binding of `m`,
or append it if absent. -/
def setKey : List (String × ℚ) → String → ℚ → List (String × ℚ)
  | [], m, v => [(m, v)]
  | (k, w) :: t, m, v => if k = m then (m, v) :: t else (k, w) :: setKey t m v

/-- The clamp `max(-10.0, min(10.0, x))` used by `learn_from_choice`. -/
def clampQ (x : ℚ) : ℚ := max (-10) (min 10 x)

/-- The loop body of `score_route`: state is `(score, total_walk_min)`. -/
def scoreStep (prefs : Prefs) (st : ℚ × ℚ) (s : Seg) : ℚ × ℚ :=
  let walk := if s.mode = "WALK" then st.2 + s.duration_min else st.2
  let sc := st.1 + s.duration_min - getBias prefs.mode_bias s.mode
      + prefs.crowd_weight * ((s.crowd : ℚ) - 1)
  let sc := if s.crowd > prefs.max_crowd then sc + 1000 else sc
  (sc, walk)

/-- `score_route(segs, prefs=...)` from `src/planner.py`.  The embedding takes
the effective (already merged) preferences: in the source, a `None` argument
means the stored prefs and an explicit argument is shallow-merged over them;
either way the loop runs on one merged dict, which is this parameter. -/
def score_route (segs : List Seg) (prefs : Prefs) : ℚ :=
  let st := segs.foldl (scoreStep prefs) (0, 0)
  if st.2 > prefs.walk_limit_min then st.1 + 999 else st.1

/-- Per-segment cost: travel time, minus mode bias, plus crowd-weighted
surcharge, plus the per-segment over-crowd penalty. -/
def segCost (prefs : Prefs) (s : Seg) : ℚ :=
  s.duration_min - getBias prefs.mode_bias s.mode
    + prefs.crowd_weight * ((s.crowd : ℚ) - 1)
    + (if s.crowd > prefs.max_crowd then 1000 else 0)

/-- Total walking minutes of a segment list. -/
def walkSum (segs : List Seg) : ℚ :=
  (segs.map fun s => if s.mode = "WALK" then s.duration_min else 0).sum

theorem foldl_scoreStep (prefs : Prefs) :
    ∀ (segs : List Seg) (sc w : ℚ),
      segs.foldl (scoreStep prefs) (sc, w) =
        (sc + (segs.map (segCost prefs)).sum, w + walkSum segs) := by
  intro segs
  induction segs with
  | nil => intro sc w; simp [walkSum]
  | cons s t ih =>
    intro sc w
    simp only [List.foldl_cons, List.map_cons, List.sum_cons]
    rw [show scoreStep prefs (sc, w) s =
        (sc + segCost prefs s, w + (if s.mode = "WALK" then s.duration_min else 0)) from ?_]
    · rw [ih]
      refine Prod.ext ?_ ?_ <;> simp [walkSum] <;> ring
    · simp only [scoreStep, segCost]
      refine Prod.ext ?_ ?_
      · show (if s.crowd > prefs.max_crowd then _ + 1000 else _) = _
        split <;> simp <;> ring
      · show (if s.mode = "WALK" then w + s.duration_min else w) = _
        split <;> simp

/-- Decomposition of `score_route` into a per-segment sum plus the
once-per-route walk penalty. -/
theorem score_route_eq_sum (segs : List Seg) (prefs : Prefs) :
    score_route segs prefs =
      (segs.map (segCost prefs)).sum +
        (if walkSum segs > prefs.walk_limit_min then 999 else 0) := by
  unfold score_route
  rw [foldl_scoreStep]
  simp only [zero_add]
  split <;> simp

/-- The three-segment example from the spec: SUBWAY 10 min crowd 2,
WALK 5 min crowd 1, BUS 8 min crowd 3. -/
def exSegs : List Seg :=
  [ { mode := "SUBWAY", name := "2호선", distance_m := 8000, duration_min := 10,
      crowd := 2, best_car := some 1, poly := [] },
    { mode := "WALK", name := "도보", distance_m := 390, duration_min := 5,
      crowd := 1, best_car := none, poly := [] },
    { mode := "BUS", name := "271", distance_m := 3000, duration_min := 8,
      crowd := 3, best_car := none, poly := [] } ]

/-- The example preferences: crowd_weight 2, max_crowd 4, walk_limit_min 15,
all-zero mode bias. -/
def exPrefs : Prefs :=
  { crowd_weight := 2, max_crowd := 4, walk_limit_min := 15,
    mode_bias := [("SUBWAY", 0), ("BUS", 0), ("WALK", 0)], runs := 0, extra := [] }

/-- C1: `score_route` accumulates, per segment in order, duration minus mode
bias plus `crowd_weight * (crowd - 1)`, adds 1000 per segment whose crowd
exceeds `max_crowd`, and adds 999 once if the summed WALK duration exceeds
`walk_limit_min`; on the spec's example the score is 29, and 1029 once
`max_crowd` is lowered to 2. -/
theorem score_route_accumulates_and_examples :
    (∀ (segs : List Seg) (prefs : Prefs),
      score_route segs prefs =
        (segs.map fun s =>
            s.duration_min - getBias prefs.mode_bias s.mode
              + prefs.crowd_weight * ((s.crowd : ℚ) - 1)
              + (if s.crowd > prefs.max_crowd then 1000 else 0)).sum
          + (if walkSum segs > prefs.walk_limit_min then 999 else 0))
    ∧ score_route exSegs exPrefs = 29
    ∧ score_route exSegs { exPrefs with max_crowd := 2 } = 1029 := by
  refine ⟨fun segs prefs => score_route_eq_sum segs prefs, ?_, ?_⟩ <;>
  · simp [score_route, scoreStep, getBias, exSegs, exPrefs, List.lookup]
    norm_num

/-- `pct_to_level` from `src/planner.py`: congestion percentage to level. -/
def pct_to_level (pct : ℚ) : ℤ :=
  if pct < 70 then 1
  else if pct < 100 then 2
  else if pct < 150 then 3
  else 4

/-- Level part of `subway_crowd_level`.  The external CSV lookup
`df.loc[...].mean()` is embedded as an `Option ℚ` argument: `none` models a
missing table, a missing observation (`NaN` mean), or any exception swallowed
by the bare `except`, all of which yield the default level 2.  The randomized
best-car advisory drawn alongside the level is external randomness and is not
part of the level computation. -/
def subway_crowd_level (pct : Option ℚ) : ℤ :=
  match pct with
  | none => 2
  | some p => pct_to_level p

/-- The outcome of `_load_bus_df()` plus the per-route lookup, as seen by
`bus_crowd_level`.  The load runs OUTSIDE the function's `try/except`:
`absent` is a missing `seoul_bus_crowd.csv` (`_load_bus_df` returns `None`),
`loadError` a present but corrupt or empty CSV on which `pd.read_csv` raises
(the exception is not caught and propagates), and `loaded board` a loaded
table together with the outcome of the per-route mean-boarding lookup
(`none` = `NaN` mean or any exception swallowed by the bare `except`). -/
inductive BusTable where
  | absent : BusTable
  | loadError : BusTable
  | loaded : Option ℚ → BusTable
deriving DecidableEq, Repr

/-- `bus_crowd_level` from `src/planner.py`.  A `none` result models the
uncaught exception raised while loading a present but corrupt CSV — only the
per-route lookup is inside the `try`, the table load is not. -/
def bus_crowd_level (tbl : BusTable) : Option ℤ :=
  match tbl with
  | BusTable.loadError => none
  | BusTable.absent => some 2
  | BusTable.loaded board =>
    match board with
    | none => some 2
    | some b =>
      some (if b < 10 then 1
        else if b < 25 then 2
        else if b < 40 then 3
        else 4)

/-- Counterexample to C8 as stated: a failure while loading a present
`seoul_bus_crowd.csv` happens outside the `try/except` of `bus_crowd_level`,
so it propagates to the caller instead of degrading to the default level 2. -/
theorem bus_crowd_level_propagates_load_failure :
    bus_crowd_level BusTable.loadError = none ∧
    ¬ bus_crowd_level BusTable.loadError = some 2 := by
  exact ⟨rfl, by simp [bus_crowd_level]⟩

/-- C8 (amended): the subway estimator never fails — every lookup error is
inside its `try` — and maps the observed congestion percentage to a level in
[1,4] by the thresholds `<70, <100, <150`, defaulting to 2 when the
observation is missing.  The bus estimator returns a level in [1,4] whenever
it returns, maps the mean boarding count by `<10, <25, <40`, and defaults to
2 for an absent data source, a missing observation, or any error inside the
per-route lookup — but an error while loading a present bus CSV propagates
to the caller instead of defaulting. -/
theorem crowd_levels_bounded_and_thresholds :
    (∀ pct : Option ℚ, 1 ≤ subway_crowd_level pct ∧ subway_crowd_level pct ≤ 4)
    ∧ subway_crowd_level none = 2
    ∧ (∀ p : ℚ, subway_crowd_level (some p) = pct_to_level p)
    ∧ (∀ p : ℚ, p < 70 → pct_to_level p = 1)
    ∧ (∀ p : ℚ, 70 ≤ p → p < 100 → pct_to_level p = 2)
    ∧ (∀ p : ℚ, 100 ≤ p → p < 150 → pct_to_level p = 3)
    ∧ (∀ p : ℚ, 150 ≤ p → pct_to_level p = 4)
    ∧ (∀ (tbl : BusTable) (lvl : ℤ), bus_crowd_level tbl = some lvl →
        1 ≤ lvl ∧ lvl ≤ 4)
    ∧ bus_crowd_level BusTable.absent = some 2
    ∧ bus_crowd_level (BusTable.loaded none) = some 2
    ∧ bus_crowd_level BusTable.loadError = none
    ∧ (∀ b : ℚ, b < 10 → bus_crowd_level (BusTable.loaded (some b)) = some 1)
    ∧ (∀ b : ℚ, 10 ≤ b → b < 25 → bus_crowd_level (BusTable.loaded (some b)) = some 2)
    ∧ (∀ b : ℚ, 25 ≤ b → b < 40 → bus_crowd_level (BusTable.loaded (some b)) = some 3)
    ∧ (∀ b : ℚ, 40 ≤ b → bus_crowd_level (BusTable.loaded (some b)) = some 4) := by
  refine ⟨fun pct => ?_, rfl, fun p => rfl,
    fun p h => ?_, fun p h h' => ?_, fun p h h' => ?_, fun p h => ?_,
    fun tbl lvl h => ?_,
    rfl, rfl, rfl,
    fun b h => ?_, fun b h h' => ?_, fun b h h' => ?_, fun b h => ?_⟩
  · rcases pct with _ | p <;> simp [subway_crowd_level, pct_to_level] <;>
      split_ifs <;> omega
  case refine_6 =>
    rcases tbl with _ | _ | board
    · simp only [bus_crowd_level, Option.some.injEq] at h
      omega
    · simp [bus_crowd_level] at h
    · rcases board with _ | b
      · simp only [bus_crowd_level, Option.some.injEq] at h
        omega
      · simp only [bus_crowd_level, Option.some.injEq] at h
        rw [← h]
        constructor <;> split_ifs <;> omega
  all_goals simp only [pct_to_level, bus_crowd_level] <;> split_ifs <;>
    first | rfl | linarith

/-- Witness for C8 (amended) at concrete inputs: percentage 65 is below 70
and maps to level 1; boarding count 30 lies in [25,40) and maps to level 3. -/
theorem crowd_levels_witness :
    ((65 : ℚ) < 70 ∧ pct_to_level 65 = 1)
    ∧ ((25 : ℚ) ≤ 30 ∧ (30 : ℚ) < 40 ∧
        bus_crowd_level (BusTable.loaded (some 30)) = some 3) := by
  refine ⟨⟨by norm_num, ?_⟩, ⟨by norm_num, by norm_num, ?_⟩⟩
  · exact crowd_levels_bounded_and_thresholds.2.2.2.1 65 (by norm_num)
  · exact crowd_levels_bounded_and_thresholds.2.2.2.2.2.2.2.2.2.2.2.2.2.1 30
      (by norm_num) (by norm_num)

/-- Insert a scored candidate after all already-sorted entries whose score is
`≤` its own: the insertion step of a stable ascending sort on the first
component. -/
def sInsert (x : ℚ × ℤ × List Seg) :
    List (ℚ × ℤ × List Seg) → List (ℚ × ℤ × List Seg)
  | [] => [x]
  | y :: ys => if y.1 ≤ x.1 then y :: sInsert x ys else x :: y :: ys

/-- Stable ascending sort by score, modelling Python's stable
`scored.sort(key=lambda x: x[0])` (any stable comparison sort is
extensionally the same). -/
def stableSortByScore (xs : List (ℚ × ℤ × List Seg)) :
    List (ℚ × ℤ × List Seg) :=
  xs.foldl (fun acc x => sInsert x acc) []

/-- `choose_best_route` from `src/planner.py`: score every candidate, tag it
with its 1-based index, stably sort by score, return the first.  The `headD`
default is unreachable because the scored list of a non-empty candidate list
is non-empty (Python indexes `scored[0]`). -/
def choose_best_route (routes : List (List Seg)) (prefs : Prefs) :
    ℤ × List Seg :=
  match routes with
  | [] => (-1, [])
  | _ :: _ =>
    let scored := routes.enum.map fun p =>
      (score_route p.2 prefs, (p.1 : ℤ) + 1, p.2)
    let b := (stableSortByScore scored).headD (0, 0, [])
    (b.2.1, b.2.2)

/-- The running leftmost-minimum of the scored list (first component is the
sort key). -/
def leftMinFrom (x : ℚ × ℤ × List Seg) (l : List (ℚ × ℤ × List Seg)) :
    ℚ × ℤ × List Seg :=
  l.foldl (fun m y => if y.1 < m.1 then y else m) x

theorem leftMinFrom_le :
    ∀ (l : List (ℚ × ℤ × List Seg)) (x : ℚ × ℤ × List Seg),
      (leftMinFrom x l).1 ≤ x.1 ∧ ∀ y ∈ l, (leftMinFrom x l).1 ≤ y.1 := by
  intro l
  induction l with
  | nil => intro x; simp [leftMinFrom]
  | cons y t ih =>
    intro x
    have step : leftMinFrom x (y :: t) = leftMinFrom (if y.1 < x.1 then y else x) t := rfl
    rw [step]
    rcases ih (if y.1 < x.1 then y else x) with ⟨h1, h2⟩
    refine ⟨?_, ?_⟩
    · refine le_trans h1 ?_
      split <;> simp_all <;> linarith
    · intro z hz
      rcases List.mem_cons.mp hz with rfl | hz
      · refine le_trans h1 ?_
        split <;> simp_all
      · exact h2 z hz

theorem leftMinFrom_decomp :
    ∀ (l : List (ℚ × ℤ × List Seg)) (x : ℚ × ℤ × List Seg),
      ∃ pre post, x :: l = pre ++ leftMinFrom x l :: post ∧
        ∀ y ∈ pre, (leftMinFrom x l).1 < y.1 := by
  intro l
  induction l with
  | nil => intro x; exact ⟨[], [], rfl, by simp⟩
  | cons y t ih =>
    intro x
    have step : leftMinFrom x (y :: t) = leftMinFrom (if y.1 < x.1 then y else x) t := rfl
    by_cases hlt : y.1 < x.1
    · have hm : leftMinFrom x (y :: t) = leftMinFrom y t := by rw [step, if_pos hlt]
      rcases ih y with ⟨pre, post, hdec, hpre⟩
      have hle : (leftMinFrom y t).1 ≤ y.1 := (leftMinFrom_le t y).1
      refine ⟨x :: pre, post, ?_, ?_⟩
      · rw [hm]; rw [List.cons_append, ← hdec]
      · intro z hz
        rcases List.mem_cons.mp hz with rfl | hz
        · rw [hm]; exact lt_of_le_of_lt hle hlt
        · rw [hm]; exact hpre z hz
    · have hm : leftMinFrom x (y :: t) = leftMinFrom x t := by rw [step, if_neg hlt]
      rcases ih x with ⟨pre, post, hdec, hpre⟩
      rcases pre with _ | ⟨p0, pre'⟩
      · simp only [List.nil_append] at hdec
        have hx : leftMinFrom x t = x := (List.cons.injEq _ _ _ _ ▸ hdec).1.symm
        refine ⟨[], y :: t, ?_, by simp⟩
        rw [hm, hx]
        rfl
      · have hp0 : p0 = x := (List.cons.injEq _ _ _ _ ▸ hdec).1.symm
        have ht : t = pre' ++ leftMinFrom x t :: post :=
          (List.cons.injEq _ _ _ _ ▸ hdec).2
        have hxlt : (leftMinFrom x t).1 < x.1 := by
          apply hpre; rw [hp0]; exact List.mem_cons_self _ _
        refine ⟨x :: y :: pre', post, ?_, ?_⟩
        · rw [hm]; simp only [List.cons_append]; rw [← ht]
        · intro z hz
          rcases List.mem_cons.mp hz with rfl | hz
          · rw [hm]; exact hxlt
          · rcases List.mem_cons.mp hz with rfl | hz
            · rw [hm]; exact lt_of_lt_of_le hxlt (le_of_not_lt hlt)
            · rw [hm]
              exact hpre z (by rw [hp0]; exact List.mem_cons_of_mem _ hz)

theorem length_sInsert (x : ℚ × ℤ × List Seg) :
    ∀ l, (sInsert x l).length = l.length + 1 := by
  intro l
  induction l with
  | nil => rfl
  | cons y ys ih => simp only [sInsert]; split <;> simp [ih]

theorem length_stableSortByScore (xs : List (ℚ × ℤ × List Seg)) :
    (stableSortByScore xs).length = xs.length := by
  induction xs using List.reverseRecOn with
  | nil => rfl
  | append_singleton xs x ih =>
    have hstep : stableSortByScore (xs ++ [x]) = sInsert x (stableSortByScore xs) := by
      unfold stableSortByScore
      rw [List.foldl_append]
      simp
    rw [hstep, length_sInsert, ih]
    simp

/-- The first element of the stable sort is the leftmost minimum. -/
def headMin : List (ℚ × ℤ × List Seg) → Option (ℚ × ℤ × List Seg)
  | [] => none
  | x :: t => some (leftMinFrom x t)

theorem head?_stableSortByScore :
    ∀ xs : List (ℚ × ℤ × List Seg), (stableSortByScore xs).head? = headMin xs := by
  intro xs
  induction xs using List.reverseRecOn with
  | nil => rfl
  | append_singleton xs x ih =>
    have hstep : stableSortByScore (xs ++ [x]) = sInsert x (stableSortByScore xs) := by
      unfold stableSortByScore
      rw [List.foldl_append]
      simp
    rw [hstep]
    rcases hs : stableSortByScore xs with _ | ⟨y, ys⟩
    · have hlen : xs.length = 0 := by
        have := length_stableSortByScore xs
        rw [hs] at this
        simpa using this.symm
      rcases List.length_eq_zero.mp hlen with rfl
      rfl
    · rw [hs] at ih
      rcases xs with _ | ⟨z, t⟩
      · simp [headMin] at ih
      · simp only [headMin, List.head?] at ih
        have hy : y = leftMinFrom z t := Option.some.inj ih
        have hlm : leftMinFrom z (t ++ [x]) =
            (if x.1 < (leftMinFrom z t).1 then x else leftMinFrom z t) := by
          unfold leftMinFrom
          rw [List.foldl_append]
          simp [leftMinFrom]
        show (sInsert x (y :: ys)).head? = headMin ((z :: t) ++ [x])
        have hcons : (z :: t) ++ [x] = z :: (t ++ [x]) := rfl
        rw [hcons]
        simp only [headMin, sInsert, hlm, ← hy]
        by_cases hle : y.1 ≤ x.1
        · rw [if_pos hle, if_neg (not_lt.mpr hle)]
          rfl
        · rw [if_neg hle, if_pos (lt_of_not_le hle)]
          rfl

theorem scored_getElem (routes : List (List Seg)) (prefs : Prefs) (j : ℕ)
    (r : List Seg) (hj : routes[j]? = some r) :
    (routes.enum.map fun p => (score_route p.2 prefs, (p.1 : ℤ) + 1, p.2))[j]? =
      some (score_route r prefs, (j : ℤ) + 1, r) := by
  rw [List.getElem?_map, List.getElem?_enum, hj]
  rfl


theorem headMin_spec (z : ℚ × ℤ × List Seg) (t : List (ℚ × ℤ × List Seg)) :
    ∃ pre post, z :: t = pre ++ leftMinFrom z t :: post ∧
      (∀ y ∈ pre, (leftMinFrom z t).1 < y.1) ∧
      (∀ y ∈ z :: t, (leftMinFrom z t).1 ≤ y.1) := by
  obtain ⟨pre, post, hdec, hpre⟩ := leftMinFrom_decomp t z
  obtain ⟨h1, h2⟩ := leftMinFrom_le t z
  refine ⟨pre, post, hdec, hpre, fun y hy => ?_⟩
  rcases List.mem_cons.mp hy with rfl | hy
  exacts [h1, h2 y hy]

/-- C3: on a non-empty candidate list, `choose_best_route` returns a 1-based
index `k + 1` and the candidate stored at position `k`; its score is minimal
over the whole list, and every candidate at a strictly earlier position has a
strictly larger score (so among ties the lowest original index wins). -/
theorem choose_best_route_selects_min (routes : List (List Seg)) (prefs : Prefs)
    (h : routes ≠ []) :
    ∃ k : ℕ, k < routes.length ∧
      (choose_best_route routes prefs).1 = (k : ℤ) + 1 ∧
      routes[k]? = some (choose_best_route routes prefs).2 ∧
      (∀ r ∈ routes,
        score_route (choose_best_route routes prefs).2 prefs ≤ score_route r prefs) ∧
      (∀ j, j < k → ∀ r, routes[j]? = some r →
        score_route (choose_best_route routes prefs).2 prefs < score_route r prefs) := by
  rcases routes with _ | ⟨r0, rs⟩
  · exact absurd rfl h
  have hS : ((r0 :: rs).enum.map fun p => (score_route p.2 prefs, (p.1 : ℤ) + 1, p.2)) =
      (score_route r0 prefs, (0 : ℤ) + 1, r0) ::
        ((rs.enumFrom 1).map fun p => (score_route p.2 prefs, (p.1 : ℤ) + 1, p.2)) := by
    rw [List.enum_cons]
    rfl
  obtain ⟨pre, post, hdec, hpre, hmin⟩ :=
    headMin_spec ((score_route r0 prefs, (0 : ℤ) + 1, r0))
      ((rs.enumFrom 1).map fun p => (score_route p.2 prefs, (p.1 : ℤ) + 1, p.2))
  have hhead : (stableSortByScore
      ((r0 :: rs).enum.map fun p => (score_route p.2 prefs, (p.1 : ℤ) + 1, p.2))).head? =
      some (leftMinFrom (score_route r0 prefs, (0 : ℤ) + 1, r0)
        ((rs.enumFrom 1).map fun p => (score_route p.2 prefs, (p.1 : ℤ) + 1, p.2))) := by
    rw [hS, head?_stableSortByScore]
    rfl
  have hchoose : choose_best_route (r0 :: rs) prefs =
      (((stableSortByScore
          ((r0 :: rs).enum.map fun p => (score_route p.2 prefs, (p.1 : ℤ) + 1, p.2))).headD
            (0, 0, [])).2.1,
       ((stableSortByScore
          ((r0 :: rs).enum.map fun p => (score_route p.2 prefs, (p.1 : ℤ) + 1, p.2))).headD
            (0, 0, [])).2.2) := rfl
  have hd : (stableSortByScore
      ((r0 :: rs).enum.map fun p => (score_route p.2 prefs, (p.1 : ℤ) + 1, p.2))).headD
        (0, 0, []) =
      leftMinFrom (score_route r0 prefs, (0 : ℤ) + 1, r0)
        ((rs.enumFrom 1).map fun p => (score_route p.2 prefs, (p.1 : ℤ) + 1, p.2)) := by
    rw [List.headD_eq_head?, hhead]
    rfl
  rw [hd] at hchoose
  have hSdec : ((r0 :: rs).enum.map fun p => (score_route p.2 prefs, (p.1 : ℤ) + 1, p.2)) =
      pre ++ leftMinFrom (score_route r0 prefs, (0 : ℤ) + 1, r0)
        ((rs.enumFrom 1).map fun p => (score_route p.2 prefs, (p.1 : ℤ) + 1, p.2)) :: post := by
    rw [hS]
    exact hdec
  have hklt : pre.length < (r0 :: rs).length := by
    have hlen : (((r0 :: rs).enum.map
        fun p => (score_route p.2 prefs, (p.1 : ℤ) + 1, p.2)).length) = (r0 :: rs).length := by
      simp [List.enum_length]
    rw [hSdec] at hlen
    simp only [List.length_append, List.length_cons] at hlen ⊢
    omega
  have hrk : (r0 :: rs)[pre.length]? = some ((r0 :: rs)[pre.length]) :=
    List.getElem?_eq_getElem hklt
  have hmk := scored_getElem (r0 :: rs) prefs pre.length ((r0 :: rs)[pre.length]) hrk
  have hm_at : ((r0 :: rs).enum.map
      fun p => (score_route p.2 prefs, (p.1 : ℤ) + 1, p.2))[pre.length]? =
      some (leftMinFrom (score_route r0 prefs, (0 : ℤ) + 1, r0)
        ((rs.enumFrom 1).map fun p => (score_route p.2 prefs, (p.1 : ℤ) + 1, p.2))) := by
    rw [hSdec, List.getElem?_append_right (le_refl _)]
    simp
  have hm_eq : leftMinFrom (score_route r0 prefs, (0 : ℤ) + 1, r0)
      ((rs.enumFrom 1).map fun p => (score_route p.2 prefs, (p.1 : ℤ) + 1, p.2)) =
      (score_route ((r0 :: rs)[pre.length]) prefs, (pre.length : ℤ) + 1,
        (r0 :: rs)[pre.length]) :=
    Option.some.inj (hm_at.symm.trans hmk)
  refine ⟨pre.length, hklt, ?_, ?_, ?_, ?_⟩
  · rw [hchoose, hm_eq]
  · rw [hchoose, hrk, hm_eq]
  · intro r hr
    obtain ⟨j, hj⟩ := List.mem_iff_getElem?.mp hr
    have hsj := scored_getElem (r0 :: rs) prefs j r hj
    have hmem : (score_route r prefs, (j : ℤ) + 1, r) ∈
        ((r0 :: rs).enum.map fun p => (score_route p.2 prefs, (p.1 : ℤ) + 1, p.2)) :=
      List.mem_iff_getElem?.mpr ⟨j, hsj⟩
    rw [hS] at hmem
    have hle := hmin _ hmem
    rw [hchoose]
    show score_route (leftMinFrom (score_route r0 prefs, (0 : ℤ) + 1, r0)
        ((rs.enumFrom 1).map fun p => (score_route p.2 prefs, (p.1 : ℤ) + 1, p.2))).2.2
        prefs ≤ score_route r prefs
    rw [hm_eq]
    rw [hm_eq] at hle
    exact hle
  · intro j hjk r hj
    have hsj := scored_getElem (r0 :: rs) prefs j r hj
    have hpre_at : ((r0 :: rs).enum.map
        fun p => (score_route p.2 prefs, (p.1 : ℤ) + 1, p.2))[j]? = pre[j]? := by
      rw [hSdec, List.getElem?_append]
      rw [if_pos hjk]
    have hpj : pre[j]? = some (score_route r prefs, (j : ℤ) + 1, r) := by
      rw [← hpre_at]
      exact hsj
    have hmem_pre : (score_route r prefs, (j : ℤ) + 1, r) ∈ pre :=
      List.mem_iff_getElem?.mpr ⟨j, hpj⟩
    have hlt := hpre _ hmem_pre
    rw [hchoose]
    show score_route (leftMinFrom (score_route r0 prefs, (0 : ℤ) + 1, r0)
        ((rs.enumFrom 1).map fun p => (score_route p.2 prefs, (p.1 : ℤ) + 1, p.2))).2.2
        prefs < score_route r prefs
    rw [hm_eq]
    rw [hm_eq] at hlt
    exact hlt

/-- A plain walking segment used in concrete instantiations. -/
def wseg (d : ℚ) : Seg :=
  { mode := "WALK", name := "도보", distance_m := 78 * d, duration_min := d,
    crowd := 1, best_car := none, poly := [] }

/-- Witness for C3: two walking candidates of 9 and 3 minutes; the hypothesis
(non-emptiness) is discharged at this concrete input. -/
theorem choose_best_route_selects_min_witness :
    ([[wseg 9], [wseg 3]] : List (List Seg)) ≠ [] ∧
    (∃ k : ℕ, k < ([[wseg 9], [wseg 3]] : List (List Seg)).length ∧
      (choose_best_route [[wseg 9], [wseg 3]] exPrefs).1 = (k : ℤ) + 1 ∧
      ([[wseg 9], [wseg 3]] : List (List Seg))[k]? =
        some (choose_best_route [[wseg 9], [wseg 3]] exPrefs).2 ∧
      (∀ r ∈ ([[wseg 9], [wseg 3]] : List (List Seg)),
        score_route (choose_best_route [[wseg 9], [wseg 3]] exPrefs).2 exPrefs ≤
          score_route r exPrefs) ∧
      (∀ j, j < k → ∀ r, ([[wseg 9], [wseg 3]] : List (List Seg))[j]? = some r →
        score_route (choose_best_route [[wseg 9], [wseg 3]] exPrefs).2 exPrefs <
          score_route r exPrefs)) :=
  ⟨by simp, choose_best_route_selects_min [[wseg 9], [wseg 3]] exPrefs (by simp)⟩

/-- C4: on an empty candidate list `choose_best_route` returns `(-1, [])`
(the guard `if not routes` fires before any indexing, so nothing can fail). -/
theorem choose_best_route_empty (prefs : Prefs) :
    choose_best_route [] prefs = (-1, []) := rfl

/-- One entry of a raw leg's `lane` list; every field is optional because the
source reads them with `.get` or direct indexing on a provider-supplied dict. -/
structure Lane where
  laneName : Option String
  name : Option String
  subwayName : Option String
  busNo : Option String
  busID : Option String
deriving DecidableEq, Repr

/-- One raw `subPath` leg from the route-search provider.  `passStopList` is
the already-projected list of `(y, x)` stop coordinates
(`sp.get("passStopList", {}).get("stations", [])`, missing ↦ `[]`). -/
structure SubPath where
  trafficType : Option ℤ
  lane : Option (List Lane)
  sectionTime : Option ℚ
  distance : Option ℚ
  passStopList : List (ℚ × ℚ)
deriving DecidableEq, Repr

/-- `AVG_WALK_SPEED = 1.3` m/s. -/
def AVG_WALK_SPEED : ℚ := 13 / 10

/-- Python `round(x, 2)`: round to 2 decimal places, ties to even (on the
exact rationals of this embedding). -/
def pyRound2 (q : ℚ) : ℚ :=
  (if q * 100 - (⌊q * 100⌋ : ℚ) < 1 / 2 then (⌊q * 100⌋ : ℚ)
   else if q * 100 - (⌊q * 100⌋ : ℚ) > 1 / 2 then (⌊q * 100⌋ : ℚ) + 1
   else if Even ⌊q * 100⌋ then (⌊q * 100⌋ : ℚ) else (⌊q * 100⌋ : ℚ) + 1) / 100

/-- Python `a or b` on an optional string (`""` and a missing value are both
falsy and fall through to `b`). -/
def orStr (a : Option String) (b : String) : String :=
  match a with
  | none => b
  | some s => if s = "" then b else s

/-- Shared tail of the loop body of `paths_to_segs`: the
`if mode not in allowed: continue` guard (`some none` = leg skipped) followed
by the construction of the segment dict, with `duration_min = round(dur, 2)`. -/
def mkSeg (mode nm : String) (dist dur : ℚ) (crowd : ℤ) (best : Option ℤ)
    (coords : List (ℚ × ℚ)) : Option (Option Seg) :=
  if mode ∈ (["SUBWAY", "BUS", "WALK"] : List String) then
    some (some { mode := mode, name := nm, distance_m := dist,
                 duration_min := pyRound2 dur, crowd := crowd,
                 best_car := best, poly := coords })
  else some none

/-- One iteration of the `paths_to_segs` loop.  `none` models a raised
exception (`IndexError` on an empty `lane` list, `KeyError` on the direct
accesses `sp["lane"][0]["busNo"]`, `sp["sectionTime"]`, `sp["distance"]` of
the bus branch); `some none` a skipped leg; `some (some s)` an emitted
segment.  The crowd estimators (which close over `datetime.now()` and the
CSV tables) are passed in as functions. -/
def buildSeg (subwayCrowd : String → ℤ × Option ℤ) (busCrowd : String → ℤ)
    (sp : SubPath) : Option (Option Seg) :=
  if sp.trafficType = some 1 then
    match (sp.lane.getD [⟨none, none, none, none, none⟩]).head? with
    | none => none
    | some lane0 =>
      let nm := orStr lane0.laneName (orStr lane0.name (orStr lane0.subwayName ""))
      mkSeg "SUBWAY" nm (sp.distance.getD 0) (sp.sectionTime.getD 0)
        (subwayCrowd nm).1 (subwayCrowd nm).2 sp.passStopList
  else if sp.trafficType = some 2 then
    match sp.lane with
    | none => none
    | some lanes =>
      match lanes.head? with
      | none => none
      | some lane0 =>
        match lane0.busNo, sp.sectionTime, sp.distance with
        | some busNo, some dur, some dist =>
          mkSeg "BUS" busNo dist dur (busCrowd (lane0.busID.getD "")) none
            sp.passStopList
        | _, _, _ => none
  else
    mkSeg "WALK" "도보" (sp.distance.getD 0)
      (sp.distance.getD 0 / AVG_WALK_SPEED / 60) 1 none sp.passStopList

/-- `paths_to_segs` from `src/planner.py` (its `prefs` parameter is loaded but
never used inside the loop and is therefore not a parameter here). -/
def paths_to_segs (subwayCrowd : String → ℤ × Option ℤ) (busCrowd : String → ℤ) :
    List SubPath → Option (List Seg)
  | [] => some []
  | sp :: rest =>
    match buildSeg subwayCrowd busCrowd sp with
    | none => none
    | some none => paths_to_segs subwayCrowd busCrowd rest
    | some (some s) => (paths_to_segs subwayCrowd busCrowd rest).map (s :: ·)

/-- The traffic-type dispatch of the loop body: discriminant 1 ↦ SUBWAY,
2 ↦ BUS, anything else (3, an unsupported code, or a missing key) ↦ WALK. -/
def dispatchMode (tp : Option ℤ) : String :=
  if tp = some 1 then "SUBWAY" else if tp = some 2 then "BUS" else "WALK"

theorem dispatchMode_mem (tp : Option ℤ) :
    dispatchMode tp ∈ (["SUBWAY", "BUS", "WALK"] : List String) := by
  unfold dispatchMode
  split_ifs <;> simp

theorem buildSeg_emits (subwayCrowd : String → ℤ × Option ℤ)
    (busCrowd : String → ℤ) (sp : SubPath) (r : Option Seg)
    (h : buildSeg subwayCrowd busCrowd sp = some r) :
    ∃ s, r = some s ∧ s.mode = dispatchMode sp.trafficType := by
  unfold buildSeg at h
  by_cases h1 : sp.trafficType = some 1
  · rw [if_pos h1] at h
    rcases hl : (sp.lane.getD [⟨none, none, none, none, none⟩]).head? with _ | lane0
    · rw [hl] at h
      exact absurd h (by simp)
    · rw [hl] at h
      simp only [mkSeg, List.mem_cons, if_pos] at h
      rw [if_pos (by simp)] at h
      refine ⟨_, (Option.some.inj h).symm, ?_⟩
      simp [dispatchMode, h1]
  · rw [if_neg h1] at h
    by_cases h2 : sp.trafficType = some 2
    · rw [if_pos h2] at h
      rcases hl : sp.lane with _ | lanes
      · rw [hl] at h
        exact absurd h (by simp)
      · rw [hl] at h
        simp only at h
        rcases hh : lanes.head? with _ | lane0
        · rw [hh] at h
          simp at h
        · rw [hh] at h
          simp only at h
          rcases hb : lane0.busNo with _ | busNo
          · rw [hb] at h
            simp at h
          · rw [hb] at h
            rcases hst : sp.sectionTime with _ | dur
            · rw [hst] at h
              simp at h
            · rw [hst] at h
              rcases hdi : sp.distance with _ | dist
              · rw [hdi] at h
                simp at h
              · rw [hdi] at h
                simp [mkSeg] at h
                refine ⟨_, h.symm, ?_⟩
                simp [dispatchMode, h1, h2]
    · rw [if_neg h2] at h
      simp only [mkSeg] at h
      rw [if_pos (by simp)] at h
      refine ⟨_, (Option.some.inj h).symm, ?_⟩
      simp [dispatchMode, h1, h2]

/-- C2 (amended): when the builder succeeds, it emits only SUBWAY, BUS and
WALK segments, one segment per raw leg in itinerary order — discriminant 1
becomes SUBWAY, 2 becomes BUS, and every other discriminant (the walk
code 3, any unsupported code, or a missing key) becomes a WALK segment
rather than being dropped. -/
theorem paths_to_segs_modes (subwayCrowd : String → ℤ × Option ℤ)
    (busCrowd : String → ℤ) :
    ∀ (paths : List SubPath) (segs : List Seg),
      paths_to_segs subwayCrowd busCrowd paths = some segs →
      segs.length = paths.length ∧
      (∀ s ∈ segs, s.mode ∈ (["SUBWAY", "BUS", "WALK"] : List String)) ∧
      (∀ (j : ℕ) (sq : SubPath), paths[j]? = some sq →
        segs[j]?.map Seg.mode = some (dispatchMode sq.trafficType)) := by
  intro paths
  induction paths with
  | nil =>
    intro segs h
    simp only [paths_to_segs] at h
    obtain rfl : segs = [] := (Option.some.inj h).symm
    refine ⟨rfl, by simp, ?_⟩
    intro j sq hsq
    exact absurd hsq (by simp)
  | cons sp rest ih =>
    intro segs h
    simp only [paths_to_segs] at h
    rcases hb : buildSeg subwayCrowd busCrowd sp with _ | r
    · rw [hb] at h
      simp at h
    · rw [hb] at h
      obtain ⟨s, rfl, hmode⟩ := buildSeg_emits subwayCrowd busCrowd sp r hb
      rcases hr : paths_to_segs subwayCrowd busCrowd rest with _ | tl
      · rw [hr] at h
        simp at h
      · rw [hr] at h
        simp only [Option.map_some] at h
        obtain rfl : segs = s :: tl := (Option.some.inj h).symm
        obtain ⟨hlen, hall, hidx⟩ := ih tl hr
        refine ⟨by simp [hlen], ?_, ?_⟩
        · intro x hx
          rcases List.mem_cons.mp hx with rfl | hx
          · rw [hmode]
            exact dispatchMode_mem sp.trafficType
          · exact hall x hx
        · intro j sq hj
          cases j with
          | zero =>
            obtain rfl : sq = sp := by simpa using hj.symm
            simp [hmode]
          | succ n =>
            have hj' : rest[n]? = some sq := by simpa using hj
            simpa using hidx n sq hj'

/-- A concrete subway raw leg (discriminant 1). -/
def legSub : SubPath :=
  { trafficType := some 1,
    lane := some [⟨some "2호선", none, none, none, none⟩],
    sectionTime := some 10, distance := some 8000, passStopList := [] }

/-- The segment `paths_to_segs` builds from `legSub` under a crowd estimator
that always answers level 2 with no best-car suggestion. -/
def segSubOut : Seg :=
  { mode := "SUBWAY", name := "2호선", distance_m := 8000,
    duration_min := pyRound2 10, crowd := 2, best_car := none, poly := [] }

/-- Witness for C2 (amended) at a concrete input: one subway leg builds one
SUBWAY segment; the success hypothesis is discharged by evaluation. -/
theorem paths_to_segs_modes_witness :
    paths_to_segs (fun _ => (2, none)) (fun _ => 2) [legSub] = some [segSubOut] ∧
    ([segSubOut].length = [legSub].length ∧
      (∀ s ∈ [segSubOut], s.mode ∈ (["SUBWAY", "BUS", "WALK"] : List String)) ∧
      (∀ (j : ℕ) (sq : SubPath), ([legSub])[j]? = some sq →
        ([segSubOut])[j]?.map Seg.mode = some (dispatchMode sq.trafficType))) :=
  ⟨by simp [paths_to_segs, buildSeg, mkSeg, orStr, legSub, segSubOut],
   paths_to_segs_modes (fun _ => (2, none)) (fun _ => 2) [legSub] [segSubOut]
     (by simp [paths_to_segs, buildSeg, mkSeg, orStr, legSub, segSubOut])⟩

/-- A raw leg with the unsupported traffic-type discriminant 99. -/
def leg99 : SubPath :=
  { trafficType := some 99, lane := none, sectionTime := none,
    distance := some 780, passStopList := [] }

/-- Counterexample to C2 as stated: a leg whose discriminant (99) is not
subway (1), bus (2) or walk is NOT dropped — the builder emits a WALK segment
for it, so the output is not the empty list the claim requires. -/
theorem paths_to_segs_keeps_unsupported_leg :
    (paths_to_segs (fun _ => (2, none)) (fun _ => 2) [leg99]).map
        (List.map Seg.mode) = some ["WALK"] ∧
    paths_to_segs (fun _ => (2, none)) (fun _ => 2) [leg99] ≠ some [] := by
  constructor <;> simp [paths_to_segs, buildSeg, mkSeg, leg99]

/-- `learn_from_choice(segs, lr=0.5)` from `src/planner.py`: add `lr` to the
bias of every mode present in the chosen segments, subtract `lr/2` from every
mode not present, clamp every entry of the bias dict to `[-10, 10]`, and bump
`runs`.  The source loads the stored prefs and saves the result; the embedding
takes the loaded prefs as an argument and returns the updated value
(persistence is the caller's side effect). -/
def learn_from_choice (prefs : Prefs) (segs : List Seg) (lr : ℚ) : Prefs :=
  let used := segs.map Seg.mode
  let bias := (["SUBWAY", "BUS", "WALK"] : List String).foldl
    (fun b m =>
      if used.contains m then setKey b m (getBias b m + lr)
      else setKey b m (getBias b m - lr / 2)) prefs.mode_bias
  let bias := bias.map fun kv => (kv.1, clampQ kv.2)
  { prefs with mode_bias := bias, runs := prefs.runs + 1 }

/-- Iterated learning with a fixed chosen route and learning rate. -/
def learnIter (segs : List Seg) (lr : ℚ) (n : ℕ) (prefs : Prefs) : Prefs :=
  (fun p => learn_from_choice p segs lr)^[n] prefs

theorem clampQ_bounds (x : ℚ) : -10 ≤ clampQ x ∧ clampQ x ≤ 10 := by
  unfold clampQ
  exact ⟨le_max_left _ _, max_le (by norm_num) (min_le_left _ _)⟩

theorem clampQ_eq_self (x : ℚ) (h1 : -10 ≤ x) (h2 : x ≤ 10) : clampQ x = x := by
  unfold clampQ
  rw [min_eq_right h2, max_eq_right h1]

theorem lookup_setKey_self (m : String) (v : ℚ) :
    ∀ b : List (String × ℚ), (setKey b m v).lookup m = some v := by
  intro b
  induction b with
  | nil => simp [setKey, List.lookup]
  | cons kv t ih =>
    rcases kv with ⟨k, w⟩
    by_cases hk : k = m
    · simp [setKey, hk, List.lookup]
    · simp only [setKey, if_neg hk, List.lookup]
      rw [show (m == k) = false from by simp [Ne.symm hk]]
      exact ih

theorem lookup_setKey_ne (m m' : String) (v : ℚ) (h : m' ≠ m) :
    ∀ b : List (String × ℚ), (setKey b m v).lookup m' = b.lookup m' := by
  intro b
  induction b with
  | nil =>
    simp only [setKey, List.lookup]
    rw [show (m' == m) = false from by simp [h]]
  | cons kv t ih =>
    rcases kv with ⟨k, w⟩
    by_cases hk : k = m
    · subst hk
      simp only [setKey, if_pos rfl, List.lookup]
      rw [show (m' == k) = false from by simp [h]]
    · simp only [setKey, if_neg hk, List.lookup]
      by_cases hk' : m' = k
      · rw [show (m' == k) = true from by simp [hk']]
      · rw [show (m' == k) = false from by simp [hk']]
        exact ih

theorem getBias_setKey_self (b : List (String × ℚ)) (m : String) (v : ℚ) :
    getBias (setKey b m v) m = v := by
  unfold getBias
  rw [lookup_setKey_self]
  rfl

theorem getBias_setKey_ne (b : List (String × ℚ)) (m m' : String) (v : ℚ)
    (h : m' ≠ m) : getBias (setKey b m v) m' = getBias b m' := by
  unfold getBias
  rw [lookup_setKey_ne m m' v h]

theorem lookup_mapClamp (m : String) :
    ∀ b : List (String × ℚ),
      (b.map fun kv => (kv.1, clampQ kv.2)).lookup m = (b.lookup m).map clampQ := by
  intro b
  induction b with
  | nil => simp
  | cons kv t ih =>
    rcases kv with ⟨k, w⟩
    by_cases hk : m = k
    · simp [List.lookup, hk]
    · simp only [List.map_cons, List.lookup]
      rw [show (m == k) = false from by simp [hk]]
      exact ih

theorem getBias_mapClamp_of_lookup (b : List (String × ℚ)) (m : String) (v : ℚ)
    (h : b.lookup m = some v) :
    getBias (b.map fun kv => (kv.1, clampQ kv.2)) m = clampQ v := by
  unfold getBias
  rw [lookup_mapClamp, h]
  rfl

/-- One `learn_from_choice` call moves the bias of each of the three modes by
`+lr` (mode used) or `-lr/2` (mode unused) and clamps the result. -/
theorem getBias_learn (prefs : Prefs) (segs : List Seg) (lr : ℚ) (m : String)
    (hm : m ∈ (["SUBWAY", "BUS", "WALK"] : List String)) :
    getBias (learn_from_choice prefs segs lr).mode_bias m =
      clampQ (getBias prefs.mode_bias m +
        (if (segs.map Seg.mode).contains m then lr else -(lr / 2))) := by
  have hstep : ∀ (b : List (String × ℚ)) (k : String),
      (if (segs.map Seg.mode).contains k then setKey b k (getBias b k + lr)
       else setKey b k (getBias b k - lr / 2)) =
      setKey b k (getBias b k +
        (if (segs.map Seg.mode).contains k then lr else -(lr / 2))) := by
    intro b k
    split
    · rfl
    · rw [sub_eq_add_neg]
  show getBias
      (((["SUBWAY", "BUS", "WALK"] : List String).foldl
        (fun b k =>
          if (segs.map Seg.mode).contains k then setKey b k (getBias b k + lr)
          else setKey b k (getBias b k - lr / 2)) prefs.mode_bias).map
            fun kv => (kv.1, clampQ kv.2)) m = _
  simp only [List.foldl_cons, List.foldl_nil, hstep]
  rw [getBias_setKey_ne _ "SUBWAY" "BUS" _ (by decide),
    getBias_setKey_ne _ "BUS" "WALK" _ (by decide),
    getBias_setKey_ne _ "SUBWAY" "WALK" _ (by decide)]
  rcases List.mem_cons.mp hm with rfl | hm'
  · have hlk : (setKey (setKey (setKey prefs.mode_bias "SUBWAY"
        (getBias prefs.mode_bias "SUBWAY" +
          (if (segs.map Seg.mode).contains "SUBWAY" then lr else -(lr / 2)))) "BUS"
        (getBias prefs.mode_bias "BUS" +
          (if (segs.map Seg.mode).contains "BUS" then lr else -(lr / 2)))) "WALK"
        (getBias prefs.mode_bias "WALK" +
          (if (segs.map Seg.mode).contains "WALK" then lr else -(lr / 2)))).lookup
          "SUBWAY" =
        some (getBias prefs.mode_bias "SUBWAY" +
          (if (segs.map Seg.mode).contains "SUBWAY" then lr else -(lr / 2))) := by
      rw [lookup_setKey_ne "WALK" "SUBWAY" _ (by decide),
        lookup_setKey_ne "BUS" "SUBWAY" _ (by decide),
        lookup_setKey_self]
    rw [getBias_mapClamp_of_lookup _ _ _ hlk]
  rcases List.mem_cons.mp hm' with rfl | hm''
  · have hlk : (setKey (setKey (setKey prefs.mode_bias "SUBWAY"
        (getBias prefs.mode_bias "SUBWAY" +
          (if (segs.map Seg.mode).contains "SUBWAY" then lr else -(lr / 2)))) "BUS"
        (getBias prefs.mode_bias "BUS" +
          (if (segs.map Seg.mode).contains "BUS" then lr else -(lr / 2)))) "WALK"
        (getBias prefs.mode_bias "WALK" +
          (if (segs.map Seg.mode).contains "WALK" then lr else -(lr / 2)))).lookup
          "BUS" =
        some (getBias prefs.mode_bias "BUS" +
          (if (segs.map Seg.mode).contains "BUS" then lr else -(lr / 2))) := by
      rw [lookup_setKey_ne "WALK" "BUS" _ (by decide), lookup_setKey_self]
    rw [getBias_mapClamp_of_lookup _ _ _ hlk]
  rcases List.mem_cons.mp hm'' with rfl | hm3
  · have hlk : (setKey (setKey (setKey prefs.mode_bias "SUBWAY"
        (getBias prefs.mode_bias "SUBWAY" +
          (if (segs.map Seg.mode).contains "SUBWAY" then lr else -(lr / 2)))) "BUS"
        (getBias prefs.mode_bias "BUS" +
          (if (segs.map Seg.mode).contains "BUS" then lr else -(lr / 2)))) "WALK"
        (getBias prefs.mode_bias "WALK" +
          (if (segs.map Seg.mode).contains "WALK" then lr else -(lr / 2)))).lookup
          "WALK" =
        some (getBias prefs.mode_bias "WALK" +
          (if (segs.map Seg.mode).contains "WALK" then lr else -(lr / 2))) := by
      rw [lookup_setKey_self]
    rw [getBias_mapClamp_of_lookup _ _ _ hlk]
  · exact absurd hm3 (by simp)

/-- C10: `learn_from_choice` changes only the `mode_bias` dict and the `runs`
counter of the loaded preferences; `crowd_weight`, `max_crowd`,
`walk_limit_min` and every other stored key keep their previous values. -/
theorem learn_from_choice_frame (prefs : Prefs) (segs : List Seg) (lr : ℚ) :
    (learn_from_choice prefs segs lr).crowd_weight = prefs.crowd_weight ∧
    (learn_from_choice prefs segs lr).max_crowd = prefs.max_crowd ∧
    (learn_from_choice prefs segs lr).walk_limit_min = prefs.walk_limit_min ∧
    (learn_from_choice prefs segs lr).extra = prefs.extra ∧
    (learn_from_choice prefs segs lr).runs = prefs.runs + 1 :=
  ⟨rfl, rfl, rfl, rfl, rfl⟩

/-- A subway segment used in concrete instantiations. -/
def subSeg : Seg :=
  { mode := "SUBWAY", name := "2호선", distance_m := 8000, duration_min := 10,
    crowd := 2, best_car := none, poly := [] }

/-- Preferences whose SUBWAY bias already sits at the upper clamp bound. -/
def p10 : Prefs :=
  { exPrefs with mode_bias := [("SUBWAY", 10), ("BUS", 0), ("WALK", 0)] }

/-- Counterexample to C6 as stated: with `bias[SUBWAY] = 10` already at the
clamp bound and `lr = 1`, a learn call where only SUBWAY was used leaves
`bias[SUBWAY]` at 10 instead of adding exactly `lr`. -/
theorem learn_bias_clamped_not_exact :
    getBias (learn_from_choice p10 [subSeg] 1).mode_bias "SUBWAY" = 10 ∧
    getBias p10.mode_bias "SUBWAY" + 1 = 11 ∧
    ¬ getBias (learn_from_choice p10 [subSeg] 1).mode_bias "SUBWAY" =
        getBias p10.mode_bias "SUBWAY" + 1 := by
  have h1 : getBias (learn_from_choice p10 [subSeg] 1).mode_bias "SUBWAY" = 10 := by
    rw [getBias_learn p10 [subSeg] 1 "SUBWAY" (by simp)]
    rw [show ((([subSeg] : List Seg).map Seg.mode).contains "SUBWAY") = true from by
      simp [subSeg]]
    rw [show getBias p10.mode_bias "SUBWAY" = 10 from by
      simp [getBias, p10, List.lookup]]
    simp [clampQ]
  have h2 : getBias p10.mode_bias "SUBWAY" + 1 = 11 := by
    rw [show getBias p10.mode_bias "SUBWAY" = 10 from by
      simp [getBias, p10, List.lookup]]
    norm_num
  exact ⟨h1, h2, by rw [h1, h2]; norm_num⟩

/-- C6 (amended): provided the updated value stays inside the clamp interval
`[-10, 10]`, one `learn_from_choice` call adds exactly `lr` to the bias of
each of the three modes present in the chosen segments and subtracts exactly
`lr/2` from each mode not present. -/
theorem learn_bias_delta_within_bounds (prefs : Prefs) (segs : List Seg)
    (lr : ℚ) (m : String) (hm : m ∈ (["SUBWAY", "BUS", "WALK"] : List String)) :
    ((segs.map Seg.mode).contains m = true →
      -10 ≤ getBias prefs.mode_bias m + lr →
      getBias prefs.mode_bias m + lr ≤ 10 →
      getBias (learn_from_choice prefs segs lr).mode_bias m =
        getBias prefs.mode_bias m + lr) ∧
    ((segs.map Seg.mode).contains m = false →
      -10 ≤ getBias prefs.mode_bias m - lr / 2 →
      getBias prefs.mode_bias m - lr / 2 ≤ 10 →
      getBias (learn_from_choice prefs segs lr).mode_bias m =
        getBias prefs.mode_bias m - lr / 2) := by
  constructor
  · intro hc hlo hhi
    rw [getBias_learn prefs segs lr m hm, hc]
    simp only [if_true]
    exact clampQ_eq_self _ hlo hhi
  · intro hc hlo hhi
    rw [getBias_learn prefs segs lr m hm, hc]
    simp only [Bool.false_eq_true, if_false]
    rw [show getBias prefs.mode_bias m + -(lr / 2) =
      getBias prefs.mode_bias m - lr / 2 from by ring]
    exact clampQ_eq_self _ hlo hhi

/-- Witness for C6 (amended) at a concrete input: from the all-zero default
bias, a learn call with one SUBWAY segment and `lr = 1/2` moves
`bias[SUBWAY]` to exactly `0 + 1/2`. -/
theorem learn_bias_delta_witness :
    ("SUBWAY" ∈ (["SUBWAY", "BUS", "WALK"] : List String)) ∧
    ((([subSeg] : List Seg).map Seg.mode).contains "SUBWAY" = true) ∧
    (-10 ≤ getBias exPrefs.mode_bias "SUBWAY" + 1 / 2) ∧
    (getBias exPrefs.mode_bias "SUBWAY" + 1 / 2 ≤ 10) ∧
    getBias (learn_from_choice exPrefs [subSeg] (1 / 2)).mode_bias "SUBWAY" =
      getBias exPrefs.mode_bias "SUBWAY" + 1 / 2 :=
  ⟨by simp, by simp [subSeg],
   by rw [show getBias exPrefs.mode_bias "SUBWAY" = 0 from by
        simp [getBias, exPrefs, List.lookup]]; norm_num,
   by rw [show getBias exPrefs.mode_bias "SUBWAY" = 0 from by
        simp [getBias, exPrefs, List.lookup]]; norm_num,
   (learn_bias_delta_within_bounds exPrefs [subSeg] (1 / 2) "SUBWAY" (by simp)).1
     (by simp [subSeg])
     (by rw [show getBias exPrefs.mode_bias "SUBWAY" = 0 from by
        simp [getBias, exPrefs, List.lookup]]; norm_num)
     (by rw [show getBias exPrefs.mode_bias "SUBWAY" = 0 from by
        simp [getBias, exPrefs, List.lookup]]; norm_num)⟩

theorem clampAdd_iter (d : ℚ) (hd : 0 < d) (b : ℚ) (hb1 : -10 ≤ b) (hb2 : b ≤ 10) :
    ∀ n : ℕ, (fun x => clampQ (x + d))^[n] b = min 10 (b + n * d) := by
  intro n
  induction n with
  | zero => simp [min_eq_right hb2]
  | succ n ih =>
    rw [Function.iterate_succ_apply', ih]
    have hcast : b + ((n : ℚ) + 1) * d = b + (n : ℚ) * d + d := by ring
    by_cases hc : 10 ≤ b + (n : ℚ) * d
    · rw [min_eq_left hc]
      have h1 : clampQ (10 + d) = 10 := by
        unfold clampQ
        rw [min_eq_left (by linarith), max_eq_right (by norm_num)]
      rw [h1]
      rw [min_eq_left]
      push_cast
      rw [hcast]
      linarith
    · push_neg at hc
      rw [min_eq_right (le_of_lt hc)]
      have hnd : (0 : ℚ) ≤ (n : ℚ) * d := by positivity
      unfold clampQ
      rw [max_eq_right (le_min (by norm_num) (by linarith))]
      push_cast
      rw [hcast]

theorem clampSub_iter (d : ℚ) (hd : 0 < d) (b : ℚ) (hb1 : -10 ≤ b) (hb2 : b ≤ 10) :
    ∀ n : ℕ, (fun x => clampQ (x - d))^[n] b = max (-10) (b - n * d) := by
  intro n
  induction n with
  | zero => simp [max_eq_right hb1]
  | succ n ih =>
    rw [Function.iterate_succ_apply', ih]
    have hcast : b - ((n : ℚ) + 1) * d = b - (n : ℚ) * d - d := by ring
    by_cases hc : b - (n : ℚ) * d ≤ -10
    · rw [max_eq_left hc]
      have h1 : clampQ (-10 - d) = -10 := by
        unfold clampQ
        rw [min_eq_right (by linarith), max_eq_left (by linarith)]
      rw [h1]
      rw [max_eq_left]
      push_cast
      rw [hcast]
      linarith
    · push_neg at hc
      rw [max_eq_right (le_of_lt hc)]
      have hnd : (0 : ℚ) ≤ (n : ℚ) * d := by positivity
      unfold clampQ
      rw [min_eq_right (by linarith)]
      push_cast
      rw [hcast]

theorem getBias_learnIter_succ (prefs : Prefs) (segs : List Seg) (lr : ℚ)
    (m : String) (hm : m ∈ (["SUBWAY", "BUS", "WALK"] : List String)) :
    ∀ k : ℕ, getBias (learnIter segs lr (k + 1) prefs).mode_bias m =
      (fun x => clampQ (x +
        (if (segs.map Seg.mode).contains m then lr else -(lr / 2))))^[k]
        (getBias (learnIter segs lr 1 prefs).mode_bias m) := by
  intro k
  induction k with
  | zero => rfl
  | succ k ih =>
    have hit : learnIter segs lr (k + 1 + 1) prefs =
        learn_from_choice (learnIter segs lr (k + 1) prefs) segs lr := by
      unfold learnIter
      rw [Function.iterate_succ_apply']
    rw [hit, getBias_learn _ segs lr m hm, ih, Function.iterate_succ_apply']

/-- C5: every entry of the bias dict lies in [-10, 10] after any learn call;
each call bumps `runs` by exactly 1; and with a positive learning rate,
repeated learn calls with the same chosen route drive the bias of every used
mode to the upper clamp bound +10 and of every unused mode to the lower
clamp bound -10, never exceeding the bounds. -/
theorem learn_clamps_and_converges (prefs : Prefs) (segs : List Seg) (lr : ℚ)
    (hlr : 0 < lr) :
    (∀ m v, (m, v) ∈ (learn_from_choice prefs segs lr).mode_bias →
      -10 ≤ v ∧ v ≤ 10) ∧
    (learn_from_choice prefs segs lr).runs = prefs.runs + 1 ∧
    (∃ N : ℕ, ∀ n, N ≤ n → ∀ m ∈ (["SUBWAY", "BUS", "WALK"] : List String),
      getBias (learnIter segs lr n prefs).mode_bias m =
        if (segs.map Seg.mode).contains m then 10 else -10) := by
  refine ⟨?_, rfl, ?_⟩
  · intro m v hv
    have hv' : (m, v) ∈ ((["SUBWAY", "BUS", "WALK"] : List String).foldl
        (fun b k =>
          if (segs.map Seg.mode).contains k then setKey b k (getBias b k + lr)
          else setKey b k (getBias b k - lr / 2)) prefs.mode_bias).map
            (fun kv => (kv.1, clampQ kv.2)) := hv
    rcases List.mem_map.mp hv' with ⟨kv, -, heq⟩
    have hval : clampQ kv.2 = v := congrArg Prod.snd heq
    rw [← hval]
    exact clampQ_bounds kv.2
  · refine ⟨⌈(20 : ℚ) / lr⌉₊ + ⌈(40 : ℚ) / lr⌉₊ + 1, ?_⟩
    intro n hn m hm
    obtain ⟨k, rfl⟩ : ∃ k, n = k + 1 := ⟨n - 1, by omega⟩
    have hb1 : -10 ≤ getBias (learnIter segs lr 1 prefs).mode_bias m ∧
        getBias (learnIter segs lr 1 prefs).mode_bias m ≤ 10 := by
      have h1 : learnIter segs lr 1 prefs = learn_from_choice prefs segs lr := by
        unfold learnIter
        rw [Function.iterate_one]
      rw [h1, getBias_learn prefs segs lr m hm]
      exact clampQ_bounds _
    have hbridge := getBias_learnIter_succ prefs segs lr m hm k
    have hk20 : (⌈(20 : ℚ) / lr⌉₊ : ℚ) ≤ (k : ℚ) := by
      have : ⌈(20 : ℚ) / lr⌉₊ ≤ k := by omega
      exact_mod_cast this
    have hk40 : (⌈(40 : ℚ) / lr⌉₊ : ℚ) ≤ (k : ℚ) := by
      have : ⌈(40 : ℚ) / lr⌉₊ ≤ k := by omega
      exact_mod_cast this
    by_cases hc : (segs.map Seg.mode).contains m
    · rw [if_pos hc]
      rw [hbridge, hc]
      simp only [if_true]
      rw [clampAdd_iter lr hlr _ hb1.1 hb1.2 k]
      have h20 : (20 : ℚ) ≤ (k : ℚ) * lr := by
        have h := (div_le_iff hlr).mp (le_trans (Nat.le_ceil ((20 : ℚ) / lr)) hk20)
        linarith
      exact min_eq_left (by linarith [hb1.1])
    · rw [if_neg hc]
      rw [hbridge]
      rw [show ((segs.map Seg.mode).contains m) = false from by
        simpa using hc]
      simp only [Bool.false_eq_true, if_false]
      have hfe : (fun x => clampQ (x + -(lr / 2))) = fun x => clampQ (x - lr / 2) := by
        funext x
        rw [sub_eq_add_neg]
      rw [hfe, clampSub_iter (lr / 2) (by linarith) _ hb1.1 hb1.2 k]
      have h20 : (20 : ℚ) ≤ (k : ℚ) * (lr / 2) := by
        have h := (div_le_iff hlr).mp (le_trans (Nat.le_ceil ((40 : ℚ) / lr)) hk40)
        linarith
      exact max_eq_left (by linarith [hb1.2])

/-- Witness for C5 at a concrete input: learning rate 1/2 is positive; the
conclusion is instantiated at the default preferences with one SUBWAY
segment chosen. -/
theorem learn_clamps_and_converges_witness :
    (0 : ℚ) < 1 / 2 ∧
    ((∀ m v, (m, v) ∈ (learn_from_choice exPrefs [subSeg] (1 / 2)).mode_bias →
      -10 ≤ v ∧ v ≤ 10) ∧
    (learn_from_choice exPrefs [subSeg] (1 / 2)).runs = exPrefs.runs + 1 ∧
    (∃ N : ℕ, ∀ n, N ≤ n → ∀ m ∈ (["SUBWAY", "BUS", "WALK"] : List String),
      getBias (learnIter [subSeg] (1 / 2) n exPrefs).mode_bias m =
        if (([subSeg] : List Seg).map Seg.mode).contains m then 10 else -10)) :=
  ⟨by norm_num, learn_clamps_and_converges exPrefs [subSeg] (1 / 2) (by norm_num)⟩

/-- The raw stored content of `prefs.json`, typed per top-level key the
planner reads; `none` means the key is absent.  `extra` models any other
top-level keys (with rational values). -/
structure StoredPrefs where
  crowd_weight : Option ℚ
  max_crowd : Option ℚ
  walk_limit_min : Option ℚ
  mode_bias : Option (List (String × ℚ))
  runs : Option ℚ
  mode_penalty : Option (List (String × ℚ))
  mode_preference : Option (List (String × ℚ))
  extra : List (String × ℚ)
deriving DecidableEq, Repr

/-- `DEFAULT_PREFS` from `src/planner.py`. -/
def DEFAULT_PREFS : StoredPrefs :=
  { crowd_weight := some 2, max_crowd := some 4, walk_limit_min := some 15,
    mode_bias := some [("SUBWAY", 0), ("BUS", 0), ("WALK", 0)],
    runs := some 0, mode_penalty := none, mode_preference := none, extra := [] }

/-- `data = {}`: the wholly empty dict used for an absent or unparsable file. -/
def emptyStored : StoredPrefs :=
  { crowd_weight := none, max_crowd := none, walk_limit_min := none,
    mode_bias := none, runs := none, mode_penalty := none,
    mode_preference := none, extra := [] }

/-- Top-level dict merge `{**a, **b}`: a key present in `b` overrides the same
key of `a`; nested values (such as the `mode_bias` dict) are replaced
wholesale, never merged per mode. -/
def mergeStored (a b : StoredPrefs) : StoredPrefs :=
  { crowd_weight := b.crowd_weight <|> a.crowd_weight,
    max_crowd := b.max_crowd <|> a.max_crowd,
    walk_limit_min := b.walk_limit_min <|> a.walk_limit_min,
    mode_bias := b.mode_bias <|> a.mode_bias,
    runs := b.runs <|> a.runs,
    mode_penalty := b.mode_penalty <|> a.mode_penalty,
    mode_preference := b.mode_preference <|> a.mode_preference,
    extra := a.extra.filter (fun kv => (b.extra.lookup kv.1) = none) ++ b.extra }

/-- `_migrate_bias` from `src/planner.py`: if the dict has no `mode_bias` key,
synthesize one from the legacy `mode_penalty` / `mode_preference` keys as
`preference - penalty` per mode (each side defaulting to 0.0); legacy keys
are kept.  After the merge with `DEFAULT_PREFS` the `mode_bias` key is always
present, so the migration branch is dead in `load_prefs`; it is embedded
anyway for fidelity. -/
def migrate_bias (p : StoredPrefs) : StoredPrefs :=
  if p.mode_bias = none then
    { p with mode_bias := some [
        ("SUBWAY", getBias (p.mode_preference.getD []) "SUBWAY" -
          getBias (p.mode_penalty.getD []) "SUBWAY"),
        ("BUS", getBias (p.mode_preference.getD []) "BUS" -
          getBias (p.mode_penalty.getD []) "BUS"),
        ("WALK", getBias (p.mode_preference.getD []) "WALK" -
          getBias (p.mode_penalty.getD []) "WALK")] }
  else p

/-- The outcome of reading and parsing `prefs.json`, as seen by the merge in
`load_prefs`.  The `try/except` covers only the read and the JSON parse:
`unreadable` is an absent file or any exception while reading/parsing
(`data = {}`); `falsy` a file that parses to a falsy non-dict JSON value
(`null`, `0`, `""`, `[]`, `false`), which `data or {}` turns into `{}`;
`nonMapping` a file that parses to a truthy non-dict JSON value (`[1]`,
`"x"`, `5`), on which the later `{**DEFAULT_PREFS, **data}` merge raises an
uncaught `TypeError`; `dict d` a parsed JSON object. -/
inductive StoredFile where
  | unreadable : StoredFile
  | falsy : StoredFile
  | nonMapping : StoredFile
  | dict : StoredPrefs → StoredFile
deriving DecidableEq, Repr

/-- `load_prefs` from `src/planner.py`.  A `none` result models the uncaught
`TypeError` of the `{**DEFAULT_PREFS, **(data or {})}` merge, which runs
outside the `try` on whatever the parse produced. -/
def load_prefs (file : StoredFile) : Option StoredPrefs :=
  match file with
  | StoredFile.unreadable =>
    some (migrate_bias (mergeStored DEFAULT_PREFS emptyStored))
  | StoredFile.falsy =>
    some (migrate_bias (mergeStored DEFAULT_PREFS emptyStored))
  | StoredFile.nonMapping => none
  | StoredFile.dict d => some (migrate_bias (mergeStored DEFAULT_PREFS d))

/-- A stored dict whose `mode_bias` has only a SUBWAY entry. -/
def storedSubwayOnlyBias : StoredPrefs :=
  { emptyStored with mode_bias := some [("SUBWAY", 1)] }

/-- Counterexample to C7 as stated: `load_prefs` can raise — a file parsing
to a truthy non-mapping JSON value makes the merge outside the `try` raise an
uncaught `TypeError` — and loading a dict whose `mode_bias` has only a SUBWAY
entry returns that partial mapping unchanged, with no BUS and no WALK entry. -/
theorem load_prefs_raises_and_partial_bias :
    load_prefs StoredFile.nonMapping = none ∧
    (load_prefs (StoredFile.dict storedSubwayOnlyBias)).isSome ∧
    ((load_prefs (StoredFile.dict storedSubwayOnlyBias)).getD
      emptyStored).mode_bias = some [("SUBWAY", 1)] ∧
    (((load_prefs (StoredFile.dict storedSubwayOnlyBias)).getD
      emptyStored).mode_bias.getD []).lookup "BUS" = none ∧
    (((load_prefs (StoredFile.dict storedSubwayOnlyBias)).getD
      emptyStored).mode_bias.getD []).lookup "WALK" = none := by
  refine ⟨rfl, ?_, ?_, ?_, ?_⟩ <;>
    simp [load_prefs, mergeStored, migrate_bias, storedSubwayOnlyBias,
      emptyStored, DEFAULT_PREFS, List.lookup]

/-- C7 (amended): `load_prefs` catches read and parse failures — an absent or
unparsable file, or one parsing to a falsy non-dict value, yields the
defaults — but raises an uncaught `TypeError` exactly when the file parses to
a truthy non-mapping JSON value, because the `{**DEFAULT_PREFS, **data}`
merge runs outside the `try`.  Whenever it returns, the result has a
`mode_bias` key; when the stored data itself has no `mode_bias` key the
mapping contains entries for all three modes; but a stored partial
`mode_bias` dict is returned as-is, so a mode can be missing from the
mapping (consumers only default it to 0.0 at lookup). -/
theorem load_prefs_mode_bias :
    (∀ file : StoredFile, load_prefs file = none ↔ file = StoredFile.nonMapping) ∧
    (∀ (file : StoredFile) (p : StoredPrefs), load_prefs file = some p →
      p.mode_bias.isSome) ∧
    (∀ p : StoredPrefs, load_prefs StoredFile.unreadable = some p →
      ∃ b, p.mode_bias = some b ∧
        (b.lookup "SUBWAY").isSome ∧ (b.lookup "BUS").isSome ∧
        (b.lookup "WALK").isSome) ∧
    (∀ p : StoredPrefs, load_prefs StoredFile.falsy = some p →
      ∃ b, p.mode_bias = some b ∧
        (b.lookup "SUBWAY").isSome ∧ (b.lookup "BUS").isSome ∧
        (b.lookup "WALK").isSome) ∧
    (∀ (d : StoredPrefs) (p : StoredPrefs),
      load_prefs (StoredFile.dict d) = some p → d.mode_bias = none →
      ∃ b, p.mode_bias = some b ∧
        (b.lookup "SUBWAY").isSome ∧ (b.lookup "BUS").isSome ∧
        (b.lookup "WALK").isSome) := by
  refine ⟨?_, ?_, ?_, ?_, ?_⟩
  · intro file
    cases file <;> simp [load_prefs]
  · intro file p h
    cases file with
    | unreadable =>
      obtain rfl := (Option.some.inj h).symm
      simp [migrate_bias, mergeStored, emptyStored, DEFAULT_PREFS]
    | falsy =>
      obtain rfl := (Option.some.inj h).symm
      simp [migrate_bias, mergeStored, emptyStored, DEFAULT_PREFS]
    | nonMapping => exact absurd h (by simp [load_prefs])
    | dict d =>
      obtain rfl := (Option.some.inj h).symm
      rcases hd : d.mode_bias with _ | b <;>
        simp [migrate_bias, mergeStored, DEFAULT_PREFS, hd]
  · intro p h
    obtain rfl := (Option.some.inj h).symm
    exact ⟨[("SUBWAY", 0), ("BUS", 0), ("WALK", 0)],
      by simp [migrate_bias, mergeStored, emptyStored, DEFAULT_PREFS],
      by simp [List.lookup], by simp [List.lookup], by simp [List.lookup]⟩
  · intro p h
    obtain rfl := (Option.some.inj h).symm
    exact ⟨[("SUBWAY", 0), ("BUS", 0), ("WALK", 0)],
      by simp [migrate_bias, mergeStored, emptyStored, DEFAULT_PREFS],
      by simp [List.lookup], by simp [List.lookup], by simp [List.lookup]⟩
  · intro d p h hd
    obtain rfl := (Option.some.inj h).symm
    exact ⟨[("SUBWAY", 0), ("BUS", 0), ("WALK", 0)],
      by simp [migrate_bias, mergeStored, DEFAULT_PREFS, hd],
      by simp [List.lookup], by simp [List.lookup], by simp [List.lookup]⟩

/-- Witness for C7 (amended) at the concrete input `unreadable` (absent
file): the success hypothesis is discharged by computation. -/
theorem load_prefs_mode_bias_witness :
    load_prefs StoredFile.unreadable =
      some (migrate_bias (mergeStored DEFAULT_PREFS emptyStored)) ∧
    (∃ b, (migrate_bias (mergeStored DEFAULT_PREFS emptyStored)).mode_bias =
        some b ∧
      (b.lookup "SUBWAY").isSome ∧ (b.lookup "BUS").isSome ∧
      (b.lookup "WALK").isSome) :=
  ⟨rfl, load_prefs_mode_bias.2.2.1 _ rfl⟩

theorem map_sum_set (f : Seg → ℚ) :
    ∀ (l : List Seg) (j : ℕ) (a : Seg) (hj : j < l.length),
      ((l.set j a).map f).sum = (l.map f).sum - f (l.get ⟨j, hj⟩) + f a := by
  intro l
  induction l with
  | nil => intro j a hj; exact absurd hj (by simp)
  | cons x t ih =>
    intro j a hj
    cases j with
    | zero =>
      simp only [List.set, List.map_cons, List.sum_cons, List.get]
      ring
    | succ n =>
      have hn : n < t.length := by simpa using hj
      simp only [List.set, List.map_cons, List.sum_cons, List.get]
      rw [ih n a hn]
      ring

/-- C9: with a non-negative crowd weight, a route containing a segment whose
crowd level exceeds `max_crowd` scores at least 1000 more than the same route
with that single segment's crowd level replaced by `max_crowd` (everything
else held fixed). -/
theorem score_route_threshold_penalty (segs : List Seg) (prefs : Prefs)
    (j : ℕ) (hj : j < segs.length) (hcw : 0 ≤ prefs.crowd_weight)
    (hover : prefs.max_crowd < (segs.get ⟨j, hj⟩).crowd) :
    score_route
        (segs.set j { segs.get ⟨j, hj⟩ with crowd := prefs.max_crowd }) prefs
        + 1000 ≤
      score_route segs prefs := by
  rw [score_route_eq_sum, score_route_eq_sum]
  have hwalk : walkSum
      (segs.set j { segs.get ⟨j, hj⟩ with crowd := prefs.max_crowd }) =
      walkSum segs := by
    unfold walkSum
    rw [map_sum_set _ segs j _ hj]
    have heq : (if ({ segs.get ⟨j, hj⟩ with crowd := prefs.max_crowd } : Seg).mode = "WALK"
        then ({ segs.get ⟨j, hj⟩ with crowd := prefs.max_crowd } : Seg).duration_min
        else 0) =
        (if (segs.get ⟨j, hj⟩).mode = "WALK"
         then (segs.get ⟨j, hj⟩).duration_min else 0) := rfl
    rw [heq]
    ring
  rw [hwalk]
  rw [map_sum_set (segCost prefs) segs j _ hj]
  have hcost : segCost prefs ({ segs.get ⟨j, hj⟩ with crowd := prefs.max_crowd } : Seg)
      + 1000 ≤ segCost prefs (segs.get ⟨j, hj⟩) := by
    unfold segCost
    have h1 : ({ segs.get ⟨j, hj⟩ with crowd := prefs.max_crowd } : Seg).crowd =
        prefs.max_crowd := rfl
    have h2 : ({ segs.get ⟨j, hj⟩ with crowd := prefs.max_crowd } : Seg).duration_min =
        (segs.get ⟨j, hj⟩).duration_min := rfl
    have h3 : ({ segs.get ⟨j, hj⟩ with crowd := prefs.max_crowd } : Seg).mode =
        (segs.get ⟨j, hj⟩).mode := rfl
    rw [h1, h2, h3, if_neg (lt_irrefl prefs.max_crowd), if_pos hover]
    have hc : (prefs.max_crowd : ℚ) ≤ ((segs.get ⟨j, hj⟩).crowd : ℚ) := by
      exact_mod_cast le_of_lt hover
    nlinarith [mul_nonneg hcw (sub_nonneg.mpr hc)]
  linarith

/-- Witness for C9 at a concrete input: with `max_crowd = 2` the BUS segment
of the example (crowd 3, position 2) exceeds the cap; the hypotheses are
discharged by evaluation. -/
theorem score_route_threshold_penalty_witness :
    (0 : ℚ) ≤ ({ exPrefs with max_crowd := 2 } : Prefs).crowd_weight ∧
    ({ exPrefs with max_crowd := 2 } : Prefs).max_crowd <
      (exSegs.get ⟨2, by simp [exSegs]⟩).crowd ∧
    score_route
        (exSegs.set 2 { exSegs.get ⟨2, by simp [exSegs]⟩ with
          crowd := ({ exPrefs with max_crowd := 2 } : Prefs).max_crowd })
        { exPrefs with max_crowd := 2 } + 1000 ≤
      score_route exSegs { exPrefs with max_crowd := 2 } :=
  ⟨by norm_num [exPrefs], by decide,
   score_route_threshold_penalty exSegs { exPrefs with max_crowd := 2 } 2
     (by simp [exSegs]) (by norm_num [exPrefs]) (by decide)⟩
